import Mathlib

/-!
Shallow embedding of `src/python/algorithms/clustering.py` (the correlation
clustering engine: mistake evaluator, two local-search optimizers, LP
relaxation formulator, LP solution interpreter).

Modelling conventions:
* Python `dict` is an association list `List (Nat × α)` with unique keys;
  `d.get(k)` is `dictGet`, `k in d` is `dictMem`, `d[k] = v` is `dictInsert`.
* Vertices and cluster ids are `Nat` (the repository uses Python ints).
* The canonical edge-key string `f"{min(u,v)}-{max(u,v)}"` is modelled by the
  ordered pair `(min u v, max u v)`; the LP variable-name string `f"z_{u}_{v}"`
  and the index-map key `f"{u}_{v}"` are modelled by the pair `(u, v)`.
* Python `set` iteration order is implementation-defined; `list(set(xs))` is
  modelled by `xs.dedup`.  The properties proved below do not depend on the
  order chosen.
* LP solution values (Python floats) are modelled by `ℚ`.
-/

/-- `d.get(k)`: value stored for key `k`, `none` when absent. -/
def dictGet {α : Type} (c : List (Nat × α)) (k : Nat) : Option α :=
  (c.find? (fun p => decide (p.1 = k))).map Prod.snd

/-- `k in d`. -/
def dictMem {α : Type} (c : List (Nat × α)) (k : Nat) : Bool :=
  (dictGet c k).isSome

/-- `d[k] = v`: update in place when the key exists, append otherwise. -/
def dictInsert {α : Type} (c : List (Nat × α)) (k : Nat) (v : α) : List (Nat × α) :=
  if (c.find? (fun p => decide (p.1 = k))).isSome then
    c.map (fun p => if p.1 = k then (k, v) else p)
  else
    c ++ [(k, v)]

/-- `CorrelationClustering._edge_key`: canonical unordered-edge key. -/
def edge_key (u v : Nat) : Nat × Nat :=
  (min u v, max u v)

/-- The state of a `CorrelationClustering` instance after `__init__`:
the vertex list as given, the two edge lists canonicalised into sets. -/
structure SignedGraph where
  vertices : List Nat
  positive_edges : Finset (Nat × Nat)
  negative_edges : Finset (Nat × Nat)

/-- `CorrelationClustering.__init__`. -/
def mkCorrelationClustering (vertices : List Nat)
    (positive_edges negative_edges : List (Nat × Nat)) : SignedGraph :=
  ⟨vertices,
   (positive_edges.map (fun e => edge_key e.1 e.2)).toFinset,
   (negative_edges.map (fun e => edge_key e.1 e.2)).toFinset⟩

/-- `CorrelationClustering.calculate_mistakes`: one mistake per positive edge
whose endpoints get different `dict.get` results, plus one per negative edge
whose endpoints get equal results (`None` included). -/
def calculate_mistakes {α : Type} [DecidableEq α] (g : SignedGraph)
    (clustering : List (Nat × α)) : Nat :=
  (g.positive_edges.filter
    (fun e => dictGet clustering e.1 ≠ dictGet clustering e.2)).card +
  (g.negative_edges.filter
    (fun e => dictGet clustering e.1 = dictGet clustering e.2)).card

/-- `CorrelationClustering._get_cluster_count`: `len(set(clustering.values()))`. -/
def get_cluster_count {α : Type} [DecidableEq α] (clustering : List (Nat × α)) : Nat :=
  (clustering.map Prod.snd).dedup.length

/-- `CorrelationClustering.validate_clustering`:
`set(clustering.keys()) == set(self.vertices)`. -/
def validate_clustering {α : Type} (g : SignedGraph) (clustering : List (Nat × α)) : Bool :=
  decide ((clustering.map Prod.fst).toFinset = g.vertices.toFinset)

/-- The `Clustering` dataclass. -/
structure Clustering where
  clustering : List (Nat × Nat)
  mistakes : Nat
  cluster_count : Nat
deriving DecidableEq, Repr

/-- The singleton start `{vertex: vertex for vertex in self.vertices}`
(a dict comprehension keeps one entry per distinct vertex). -/
def initClustering (g : SignedGraph) : List (Nat × Nat) :=
  g.vertices.dedup.map (fun v => (v, v))

/-- `list(set(clustering.values()))` inside the cluster-merge loop. -/
def clusterLabels (c : List (Nat × Nat)) : List Nat :=
  (c.map Prod.snd).dedup

/-- `for i in range(len(cs)): for j in range(i+1, len(cs)): (cs[i], cs[j])`. -/
def labelPairs (cs : List Nat) : List (Nat × Nat) :=
  (List.range cs.length).flatMap (fun i =>
    (List.range cs.length).flatMap (fun j =>
      if i < j then [(cs.getD i 0, cs.getD j 0)] else []))

/-- Relabel every entry carrying cluster `a` to cluster `b`
(`for vertex, cluster in test_clustering.items(): if cluster == cluster_a: ...`). -/
def mergeInto (c : List (Nat × Nat)) (a b : Nat) : List (Nat × Nat) :=
  c.map (fun p => if p.2 = a then (p.1, b) else p)

/-- Loop state of `greedy_correlation_clustering`. -/
structure GreedyState where
  clustering : List (Nat × Nat)
  best_clustering : List (Nat × Nat)
  min_mistakes : Nat
  improved : Bool
deriving DecidableEq, Repr

/-- One candidate merge of `greedy_correlation_clustering` (lines 104-118):
relabel `cluster_a` into `cluster_b` on a scratch copy, commit iff the
candidate's mistake count is strictly below `min_mistakes`. -/
def tryMergeG (g : SignedGraph) (st : GreedyState) (ab : Nat × Nat) : GreedyState :=
  let t := mergeInto st.clustering ab.1 ab.2
  let m := calculate_mistakes g t
  if m < st.min_mistakes then ⟨t, t, m, true⟩ else st

/-- One pass of the `while` body of `greedy_correlation_clustering`:
clear `improved`, then try every pair of the labels current at pass start. -/
def greedyRound (g : SignedGraph) (st : GreedyState) : GreedyState :=
  (labelPairs (clusterLabels st.clustering)).foldl (tryMergeG g)
    { st with improved := false }

/-- `while improved and iterations < max_iterations`: the fuel argument is
`max_iterations - iterations`. -/
def greedyLoop (g : SignedGraph) (st : GreedyState) : Nat → GreedyState
  | 0 => st
  | fuel + 1 => if st.improved then greedyLoop g (greedyRound g st) fuel else st

/-- Number of passes the `while` loop of `greedy_correlation_clustering`
executes from state `st` with the given fuel. -/
def greedyPassCount (g : SignedGraph) (st : GreedyState) : Nat → Nat
  | 0 => 0
  | fuel + 1 =>
    if st.improved then greedyPassCount g (greedyRound g st) fuel + 1 else 0

/-- The state right before the `while` loop of `greedy_correlation_clustering`. -/
def initGreedyState (g : SignedGraph) : GreedyState :=
  ⟨initClustering g, initClustering g, calculate_mistakes g (initClustering g), true⟩

/-- `CorrelationClustering.greedy_correlation_clustering`. -/
def greedy_correlation_clustering (g : SignedGraph) : Clustering :=
  let fin := greedyLoop g (initGreedyState g) (g.vertices.length * g.vertices.length)
  ⟨fin.best_clustering, fin.min_mistakes, get_cluster_count fin.best_clustering⟩

/-- Loop state of `simple_greedy_clustering`. -/
structure SimpleState where
  clustering : List (Nat × Nat)
  best_clustering : List (Nat × Nat)
  min_mistakes : Nat
  changed : Bool
deriving DecidableEq, Repr

/-- `for u in self.vertices: for v in self.vertices: if u == v: continue`. -/
def vertexPairs (vs : List Nat) : List (Nat × Nat) :=
  vs.flatMap (fun u => vs.flatMap (fun v => if u = v then [] else [(u, v)]))

/-- One candidate of `simple_greedy_clustering` (lines 144-165): skip when the
two vertices are already co-clustered, otherwise merge `u`'s cluster into
`v`'s on a scratch copy and commit iff strictly improving.  The catch-all arm
covers vertices missing from the clustering dict; it cannot fire in the
algorithm, whose clustering always keys every vertex. -/
def tryMergeS (g : SignedGraph) (st : SimpleState) (uv : Nat × Nat) : SimpleState :=
  match dictGet st.clustering uv.1, dictGet st.clustering uv.2 with
  | some a, some b =>
    if a = b then st
    else
      let t := mergeInto st.clustering a b
      let m := calculate_mistakes g t
      if m < st.min_mistakes then ⟨t, t, m, true⟩ else st
  | _, _ => st

/-- One pass of the `while changed` body of `simple_greedy_clustering`. -/
def simpleRound (g : SignedGraph) (st : SimpleState) : SimpleState :=
  (vertexPairs g.vertices).foldl (tryMergeS g) { st with changed := false }

theorem tryMergeS_cases (g : SignedGraph) (st : SimpleState) (uv : Nat × Nat) :
    tryMergeS g st uv = st ∨
      ((tryMergeS g st uv).min_mistakes < st.min_mistakes ∧
        (tryMergeS g st uv).changed = true) := by
  unfold tryMergeS
  rcases hu : dictGet st.clustering uv.1 with _ | a
  · exact Or.inl rfl
  · rcases hv : dictGet st.clustering uv.2 with _ | b
    · exact Or.inl rfl
    · by_cases hab : a = b
      · exact Or.inl (by simp [hab])
      · simp only [if_neg hab]
        by_cases hm :
            calculate_mistakes g (mergeInto st.clustering a b) < st.min_mistakes
        · right
          simp [if_pos hm, hm]
        · exact Or.inl (by simp [if_neg hm])

theorem foldl_tryMergeS_spec (g : SignedGraph) (l : List (Nat × Nat))
    (st : SimpleState) :
    (l.foldl (tryMergeS g) st).min_mistakes ≤ st.min_mistakes ∧
      ((l.foldl (tryMergeS g) st).changed = st.changed ∨
        (l.foldl (tryMergeS g) st).min_mistakes < st.min_mistakes) := by
  induction l generalizing st with
  | nil => simp
  | cons uv l ih =>
    simp only [List.foldl_cons]
    rcases tryMergeS_cases g st uv with h | ⟨h1, h2⟩
    · rw [h]
      exact ih st
    · rcases ih (tryMergeS g st uv) with ⟨ih1, _⟩
      exact ⟨le_of_lt (lt_of_le_of_lt ih1 h1), Or.inr (lt_of_le_of_lt ih1 h1)⟩

theorem simpleRound_min_le (g : SignedGraph) (st : SimpleState) :
    (simpleRound g st).min_mistakes ≤ st.min_mistakes :=
  (foldl_tryMergeS_spec g (vertexPairs g.vertices) { st with changed := false }).1

theorem simpleRound_changed_lt (g : SignedGraph) (st : SimpleState) :
    (simpleRound g st).changed = true →
      (simpleRound g st).min_mistakes < st.min_mistakes := by
  intro h
  unfold simpleRound at h ⊢
  rcases (foldl_tryMergeS_spec g (vertexPairs g.vertices)
      { st with changed := false }).2 with h2 | h2
  · simp only [h] at h2
    exact absurd h2.symm (by simp)
  · exact h2

/-- Termination measure for the uncapped `while changed` loop: a pass run from
a `changed` state either strictly lowers `min_mistakes` or clears `changed`. -/
def simpleMeasure (st : SimpleState) : Nat :=
  if st.changed then st.min_mistakes + 1 else 0

theorem simpleMeasure_round_lt (g : SignedGraph) (st : SimpleState)
    (h : st.changed = true) :
    simpleMeasure (simpleRound g st) < simpleMeasure st := by
  have e1 : simpleMeasure st = st.min_mistakes + 1 := by
    simp [simpleMeasure, h]
  by_cases hc : (simpleRound g st).changed = true
  · have hlt := simpleRound_changed_lt g st hc
    have e2 : simpleMeasure (simpleRound g st) =
        (simpleRound g st).min_mistakes + 1 := by
      simp [simpleMeasure, hc]
    omega
  · have e2 : simpleMeasure (simpleRound g st) = 0 := by
      simp [simpleMeasure, hc]
    omega

/-- `while changed:` of `simple_greedy_clustering` (no iteration cap; the
source loop terminates because every pass that commits a move strictly lowers
`min_mistakes`, which is what `simpleMeasure` encodes). -/
def simpleLoop (g : SignedGraph) (st : SimpleState) : SimpleState :=
  if h : st.changed = true then simpleLoop g (simpleRound g st) else st
termination_by simpleMeasure st
decreasing_by exact simpleMeasure_round_lt g st h

/-- Number of passes the `while changed` loop executes from state `st`. -/
def simplePasses (g : SignedGraph) (st : SimpleState) : Nat :=
  if h : st.changed = true then simplePasses g (simpleRound g st) + 1 else 0
termination_by simpleMeasure st
decreasing_by exact simpleMeasure_round_lt g st h

/-- The state right before the `while` loop of `simple_greedy_clustering`. -/
def initSimpleState (g : SignedGraph) : SimpleState :=
  ⟨initClustering g, initClustering g, calculate_mistakes g (initClustering g), true⟩

/-- `CorrelationClustering.simple_greedy_clustering`. -/
def simple_greedy_clustering (g : SignedGraph) : Clustering :=
  let fin := simpleLoop g (initSimpleState g)
  ⟨fin.best_clustering, fin.min_mistakes, get_cluster_count fin.best_clustering⟩

theorem tryMergeG_cases (g : SignedGraph) (st : GreedyState) (ab : Nat × Nat) :
    tryMergeG g st ab = st ∨
      ((tryMergeG g st ab).min_mistakes < st.min_mistakes ∧
        (tryMergeG g st ab).improved = true) := by
  unfold tryMergeG
  by_cases hm :
      calculate_mistakes g (mergeInto st.clustering ab.1 ab.2) < st.min_mistakes
  · right
    simp [if_pos hm, hm]
  · exact Or.inl (by simp [if_neg hm])

theorem foldl_tryMergeG_spec (g : SignedGraph) (l : List (Nat × Nat))
    (st : GreedyState) :
    (l.foldl (tryMergeG g) st).min_mistakes ≤ st.min_mistakes ∧
      ((l.foldl (tryMergeG g) st).improved = st.improved ∨
        (l.foldl (tryMergeG g) st).min_mistakes < st.min_mistakes) := by
  induction l generalizing st with
  | nil => simp
  | cons ab l ih =>
    simp only [List.foldl_cons]
    rcases tryMergeG_cases g st ab with h | ⟨h1, _⟩
    · rw [h]
      exact ih st
    · rcases ih (tryMergeG g st ab) with ⟨ih1, _⟩
      exact ⟨le_of_lt (lt_of_le_of_lt ih1 h1), Or.inr (lt_of_le_of_lt ih1 h1)⟩

theorem greedyRound_min_le (g : SignedGraph) (st : GreedyState) :
    (greedyRound g st).min_mistakes ≤ st.min_mistakes :=
  (foldl_tryMergeG_spec g (labelPairs (clusterLabels st.clustering))
    { st with improved := false }).1

theorem greedyLoop_min_le (g : SignedGraph) (st : GreedyState) (fuel : Nat) :
    (greedyLoop g st fuel).min_mistakes ≤ st.min_mistakes := by
  induction fuel generalizing st with
  | zero => simp [greedyLoop]
  | succ n ih =>
    unfold greedyLoop
    by_cases h : st.improved = true
    · simp only [h, if_true]
      exact le_trans (ih (greedyRound g st)) (greedyRound_min_le g st)
    · simp only [Bool.not_eq_true] at h
      simp [h]

theorem simpleLoop_min_le (g : SignedGraph) (st : SimpleState) :
    (simpleLoop g st).min_mistakes ≤ st.min_mistakes := by
  induction st using simpleLoop.induct g with
  | case1 st h ih =>
    unfold simpleLoop
    simp only [h, dif_pos]
    exact le_trans ih (simpleRound_min_le g st)
  | case2 st h =>
    unfold simpleLoop
    simp [h]

theorem simplePasses_le_measure (g : SignedGraph) (st : SimpleState) :
    simplePasses g st ≤ simpleMeasure st := by
  induction st using simplePasses.induct g with
  | case1 st h ih =>
    unfold simplePasses
    simp only [h, dif_pos]
    have hμ : simpleMeasure (simpleRound g st) < simpleMeasure st :=
      simpleMeasure_round_lt g st h
    omega
  | case2 st h =>
    unfold simplePasses
    simp [h, simpleMeasure]

/-- The state of a `CorrelationClusteringLP` instance after `__init__`: unlike
`CorrelationClustering`, the edge lists are kept exactly as given. -/
structure LPGraph where
  vertices : List Nat
  positive_edges : List (Nat × Nat)
  negative_edges : List (Nat × Nat)

/-- The dictionary returned by `formulate_lp` (the variable-name string
`f"z_{u}_{v}"` is modelled by the pair `(u, v)`). -/
structure LPFormulation where
  objective_coefficients : List Int
  constraint_coefficients : List (List Int)
  rhs : List Int
  constraint_types : List String
  variable_bounds : List (Int × Int)
  variable_names : List (Nat × Nat)
deriving DecidableEq, Repr

/-- `edge_variable_index`: one entry per edge of `positive_edges` then
`negative_edges`, keyed `(u, v)` in input order, valued by the running
variable index (a later duplicate key overwrites an earlier one). -/
def edgeVariableIndex (edges : List (Nat × Nat)) : List ((Nat × Nat) × Nat) :=
  edges.enum.map (fun p => (p.2, p.1))

/-- `edge_variable_index.get(key)` (a dict lookup; the last write wins). -/
def idxGet (m : List ((Nat × Nat) × Nat)) (k : Nat × Nat) : Option Nat :=
  (m.reverse.find? (fun p => decide (p.1 = k))).map Prod.snd

/-- `edge_variable_index.get(k1) or edge_variable_index.get(k2, -1)`:
Python `or` falls through on falsy values, so both a missing key *and a
stored index 0* fall back to the second lookup. -/
def indexOrNeg (m : List ((Nat × Nat) × Nat)) (k1 k2 : Nat × Nat) : Int :=
  match idxGet m k1 with
  | some n => if n = 0 then (match idxGet m k2 with
    | some n2 => (n2 : Int)
    | none => -1) else (n : Int)
  | none => match idxGet m k2 with
    | some n2 => (n2 : Int)
    | none => -1

/-- `for i in range(n): for j in range(i+1, n): for k in range(j+1, n)`. -/
def triples (n : Nat) : List (Nat × Nat × Nat) :=
  (List.range n).flatMap (fun i =>
    (List.range n).flatMap (fun j =>
      (List.range n).flatMap (fun k =>
        if i < j ∧ j < k then [(i, j, k)] else [])))

/-- `constraint = [0] * variable_index` followed by the three writes
`constraint[index_ij] = a; constraint[index_ik] = b; constraint[index_jk] = c`. -/
def triRow (n ij ik jk : Nat) (a b c : Int) : List Int :=
  (((List.replicate n (0 : Int)).set ij a).set ik b).set jk c

/-- `CorrelationClusteringLP.formulate_lp`. -/
def formulate_lp (g : LPGraph) : LPFormulation :=
  let edges := g.positive_edges ++ g.negative_edges
  let nvar := edges.length
  let evi := edgeVariableIndex edges
  let cons := (triples g.vertices.length).flatMap (fun t =>
    let vi := g.vertices.getD t.1 0
    let vj := g.vertices.getD t.2.1 0
    let vk := g.vertices.getD t.2.2 0
    let iij := indexOrNeg evi (vi, vj) (vj, vi)
    let iik := indexOrNeg evi (vi, vk) (vk, vi)
    let ijk := indexOrNeg evi (vj, vk) (vk, vj)
    if iij = -1 ∨ iik = -1 ∨ ijk = -1 then []
    else
      [triRow nvar iij.toNat iik.toNat ijk.toNat 1 (-1) (-1),
       triRow nvar iij.toNat iik.toNat ijk.toNat (-1) 1 (-1),
       triRow nvar iij.toNat iik.toNat ijk.toNat (-1) (-1) 1])
  { objective_coefficients :=
      g.positive_edges.map (fun _ => (1 : Int)) ++
        g.negative_edges.map (fun _ => (-1 : Int)),
    constraint_coefficients := cons,
    rhs := cons.map (fun _ => (0 : Int)),
    constraint_types := cons.map (fun _ => "<="),
    variable_bounds := edges.map (fun _ => ((0 : Int), (1 : Int))),
    variable_names := edges }

/-- `lp_solution.get(name)` (variable-name strings modelled as pairs,
float values modelled as rationals). -/
def solGet (sol : List ((Nat × Nat) × ℚ)) (k : Nat × Nat) : Option ℚ :=
  (sol.reverse.find? (fun p => decide (p.1 = k))).map Prod.snd

/-- `lp_solution.get(f"z_{v}_{ov}", lp_solution.get(f"z_{ov}_{v}", -1))`. -/
def zValue (sol : List ((Nat × Nat) × ℚ)) (v ov : Nat) : ℚ :=
  (solGet sol (v, ov)).getD ((solGet sol (ov, v)).getD (-1))

/-- The inner scan of `interpret_solution` (lines 394-403): for every other
vertex, look the pair's variable value up in both orientations and, when it is
neither the `-1` sentinel nor `≥ 0.5`, (re)assign that vertex to `cid`. -/
def assignScan (sol : List ((Nat × Nat) × ℚ)) (vertex cid : Nat)
    (vs : List Nat) (c : List (Nat × Nat)) : List (Nat × Nat) :=
  vs.foldl (fun c ov =>
    if vertex = ov then c
    else if zValue sol vertex ov ≠ -1 ∧ zValue sol vertex ov < 1 / 2 then
      dictInsert c ov cid
    else c) c

/-- The outer loop of `interpret_solution`: vertices already keyed in the
clustering are skipped, any other vertex opens the next sequential cluster. -/
def interpretGo (sol : List ((Nat × Nat) × ℚ)) (allVs : List Nat) :
    List Nat → List (Nat × Nat) → Nat → List (Nat × Nat)
  | [], c, _ => c
  | v :: rest, c, cid =>
    if dictMem c v then interpretGo sol allVs rest c cid
    else
      interpretGo sol allVs rest
        (assignScan sol v cid allVs (dictInsert c v cid)) (cid + 1)

/-- `CorrelationClusteringLP.interpret_solution`. -/
def interpret_solution (vertices : List Nat)
    (lp_solution : List ((Nat × Nat) × ℚ)) : List (Nat × Nat) :=
  interpretGo lp_solution vertices vertices [] 0

theorem dictGet_nil {α : Type} (k : Nat) : dictGet ([] : List (Nat × α)) k = none :=
  rfl

theorem dictGet_cons {α : Type} (p : Nat × α) (c : List (Nat × α)) (k : Nat) :
    dictGet (p :: c) k = if p.1 = k then some p.2 else dictGet c k := by
  by_cases h : p.1 = k
  · rw [if_pos h]
    unfold dictGet
    rw [List.find?_cons_of_pos]
    · rfl
    · simpa using h
  · rw [if_neg h]
    unfold dictGet
    rw [List.find?_cons_of_neg]
    simpa using h

theorem dictGet_isSome_find? {α : Type} (c : List (Nat × α)) (k : Nat) :
    (dictGet c k).isSome = (c.find? (fun p => decide (p.1 = k))).isSome := by
  unfold dictGet
  cases c.find? (fun p => decide (p.1 = k)) <;> rfl

theorem dictGet_map_update_self {α : Type} (c : List (Nat × α)) (k : Nat) (v : α) :
    dictGet (c.map (fun p => if p.1 = k then (k, v) else p)) k =
      if (dictGet c k).isSome then some v else none := by
  induction c with
  | nil => rfl
  | cons p c ih =>
    by_cases hp : p.1 = k
    · simp [dictGet_cons, hp]
    · simp [List.map_cons, if_neg hp, dictGet_cons, hp, ih]

theorem dictGet_map_update_ne {α : Type} (c : List (Nat × α)) (k k' : Nat) (v : α)
    (h : k' ≠ k) :
    dictGet (c.map (fun p => if p.1 = k then (k, v) else p)) k' = dictGet c k' := by
  induction c with
  | nil => rfl
  | cons p c ih =>
    by_cases hp : p.1 = k
    · have hpk : ¬p.1 = k' := by
        rw [hp]
        exact fun he => h he.symm
      have hkk : ¬k = k' := fun he => h he.symm
      simp [List.map_cons, if_pos hp, dictGet_cons, hkk, hpk, ih]
    · simp [List.map_cons, if_neg hp, dictGet_cons, ih]

theorem dictGet_append_single {α : Type} (c : List (Nat × α)) (k k' : Nat) (v : α) :
    dictGet (c ++ [(k, v)]) k' =
      if k' = k then some ((dictGet c k').getD v) else dictGet c k' := by
  induction c with
  | nil =>
    by_cases h : k' = k
    · subst h
      simp [dictGet_cons, dictGet_nil]
    · have hkk : ¬k = k' := fun he => h he.symm
      simp [dictGet_cons, dictGet_nil, hkk, h]
  | cons p c ih =>
    by_cases hp : p.1 = k'
    · simp [List.cons_append, dictGet_cons, hp, ite_self]
    · simp [List.cons_append, dictGet_cons, hp, ih]

theorem dictGet_insert_self {α : Type} (c : List (Nat × α)) (k : Nat) (v : α) :
    dictGet (dictInsert c k v) k = some v := by
  unfold dictInsert
  by_cases hs : (c.find? (fun p => decide (p.1 = k))).isSome
  · rw [if_pos hs, dictGet_map_update_self, if_pos]
    rw [dictGet_isSome_find?]
    exact hs
  · rw [if_neg hs, dictGet_append_single, if_pos rfl]
    have hnone : dictGet c k = none := by
      rw [← Option.not_isSome_iff_eq_none, dictGet_isSome_find?]
      simpa using hs
    rw [hnone]
    rfl

theorem dictGet_insert_ne {α : Type} (c : List (Nat × α)) (k k' : Nat) (v : α)
    (h : k' ≠ k) :
    dictGet (dictInsert c k v) k' = dictGet c k' := by
  unfold dictInsert
  by_cases hs : (c.find? (fun p => decide (p.1 = k))).isSome
  · rw [if_pos hs, dictGet_map_update_ne c k k' v h]
  · rw [if_neg hs, dictGet_append_single, if_neg h]

theorem assignScan_get (sol : List ((Nat × Nat) × ℚ)) (v cid : Nat)
    (vs : List Nat) (c : List (Nat × Nat)) (ov : Nat) :
    dictGet (assignScan sol v cid vs c) ov =
      if ov ≠ v ∧ ov ∈ vs ∧ zValue sol v ov ≠ -1 ∧ zValue sol v ov < 1 / 2 then
        some cid
      else dictGet c ov := by
  induction vs generalizing c with
  | nil => simp [assignScan]
  | cons w ws ih =>
    have hstep :
        assignScan sol v cid (w :: ws) c =
          assignScan sol v cid ws
            (if v = w then c
             else if zValue sol v w ≠ -1 ∧ zValue sol v w < 1 / 2 then
               dictInsert c w cid
             else c) := by
      simp [assignScan]
    rw [hstep, ih]
    by_cases h1 : ov ≠ v ∧ ov ∈ ws ∧ zValue sol v ov ≠ -1 ∧ zValue sol v ov < 1 / 2
    · rw [if_pos h1, if_pos ⟨h1.1, List.mem_cons_of_mem w h1.2.1, h1.2.2⟩]
    · rw [if_neg h1]
      by_cases h3 : ov ≠ v ∧ ov ∈ w :: ws ∧ zValue sol v ov ≠ -1 ∧
          zValue sol v ov < 1 / 2
      · rw [if_pos h3]
        have hw : ov = w := by
          rcases List.mem_cons.mp h3.2.1 with hc | hc
          · exact hc
          · exact absurd ⟨h3.1, hc, h3.2.2⟩ h1
        subst hw
        have hvw : ¬v = ov := fun he => h3.1 he.symm
        rw [if_neg hvw, if_pos h3.2.2, dictGet_insert_self]
      · rw [if_neg h3]
        by_cases hvw : v = w
        · rw [if_pos hvw]
        · rw [if_neg hvw]
          by_cases hz : zValue sol v w ≠ -1 ∧ zValue sol v w < 1 / 2
          · rw [if_pos hz]
            have how : ov ≠ w := by
              intro he
              subst he
              exact h3 ⟨fun hv => hvw hv.symm, List.mem_cons_self ov ws, hz⟩
            exact dictGet_insert_ne c w ov cid how
          · rw [if_neg hz]

/-! Helper lemmas for the local-search loop claims. -/

theorem greedyPassCount_le (g : SignedGraph) (fuel : Nat) :
    ∀ st, greedyPassCount g st fuel ≤ fuel := by
  induction fuel with
  | zero =>
    intro st
    simp [greedyPassCount]
  | succ n ih =>
    intro st
    unfold greedyPassCount
    by_cases h : st.improved = true
    · simp only [h, if_true]
      have := ih (greedyRound g st)
      omega
    · simp only [Bool.not_eq_true] at h
      simp [h]

theorem simpleLoop_not_changed (g : SignedGraph) (st : SimpleState)
    (h : st.changed = false) : simpleLoop g st = st := by
  unfold simpleLoop
  simp [h]

theorem greedyLoop_not_improved (g : SignedGraph) (st : GreedyState)
    (h : st.improved = false) (fuel : Nat) : greedyLoop g st fuel = st := by
  cases fuel with
  | zero => rfl
  | succ n => simp [greedyLoop, h]

theorem simple_greedy_no_pairs (g : SignedGraph)
    (h : vertexPairs g.vertices = []) :
    simple_greedy_clustering g =
      ⟨initClustering g, calculate_mistakes g (initClustering g),
        get_cluster_count (initClustering g)⟩ := by
  have hround : simpleRound g (initSimpleState g) =
      { initSimpleState g with changed := false } := by
    unfold simpleRound
    rw [h]
    rfl
  have hc : (initSimpleState g).changed = true := rfl
  have hloop : simpleLoop g (initSimpleState g) =
      { initSimpleState g with changed := false } := by
    unfold simpleLoop
    rw [dif_pos hc, hround, simpleLoop_not_changed _ _ rfl]
  unfold simple_greedy_clustering
  rw [hloop]
  rfl

theorem greedy_no_pairs (g : SignedGraph)
    (h : labelPairs (clusterLabels (initClustering g)) = []) :
    greedy_correlation_clustering g =
      ⟨initClustering g, calculate_mistakes g (initClustering g),
        get_cluster_count (initClustering g)⟩ := by
  have hround : greedyRound g (initGreedyState g) =
      { initGreedyState g with improved := false } := by
    unfold greedyRound
    rw [show clusterLabels (initGreedyState g).clustering =
        clusterLabels (initClustering g) from rfl, h]
    rfl
  have hi : (initGreedyState g).improved = true := rfl
  unfold greedy_correlation_clustering
  cases hf : g.vertices.length * g.vertices.length with
  | zero => rfl
  | succ k =>
    have hloop : greedyLoop g (initGreedyState g) (k + 1) =
        { initGreedyState g with improved := false } := by
      unfold greedyLoop
      rw [if_pos hi, hround, greedyLoop_not_improved _ _ rfl]
    rw [hloop]
    rfl

/-! The claims. -/

/-- Claim C1, counterexample: on the graph with positive edges
`{(1,2),(2,3)}` and negative edges `{(1,3)}`, `calculate_mistakes` returns 1,
not 0, for the clustering `{1:A,2:A,3:B}` (labels `A = 0`, `B = 1`): the
positive edge `(2,3)` is split across the two clusters. -/
theorem C1_counterexample :
    calculate_mistakes (mkCorrelationClustering [1, 2, 3] [(1, 2), (2, 3)] [(1, 3)])
      [(1, 0), (2, 0), (3, 1)] = 1 := by
  decide

/-- Claim C1, amended: for the graph with positive edges `{(1,2),(2,3)}` and
negative edges `{(1,3)}` and any two distinct labels `a`, `b`,
`calculate_mistakes` returns 1 for `{1:a,2:a,3:a}` (the negative edge inside
the one cluster) and also 1 for `{1:a,2:a,3:b}` (the split positive edge
`(2,3)`), rather than the 0 the claim states. -/
theorem C1_mistake_counts {α : Type} [DecidableEq α] (a b : α) (h : a ≠ b) :
    calculate_mistakes (mkCorrelationClustering [1, 2, 3] [(1, 2), (2, 3)] [(1, 3)])
      [(1, a), (2, a), (3, a)] = 1 ∧
      calculate_mistakes (mkCorrelationClustering [1, 2, 3] [(1, 2), (2, 3)] [(1, 3)])
        [(1, a), (2, a), (3, b)] = 1 := by
  constructor <;>
    simp [calculate_mistakes, mkCorrelationClustering, edge_key, dictGet,
      List.find?, List.toFinset_cons, List.toFinset_nil, Finset.filter_insert,
      Finset.filter_singleton, h]

/-- Claim C1, witness: the amended counts at the concrete labels `0` and `1`. -/
theorem C1_mistake_counts_witness :
    (0 : Nat) ≠ 1 ∧
      (calculate_mistakes (mkCorrelationClustering [1, 2, 3] [(1, 2), (2, 3)] [(1, 3)])
          [(1, 0), (2, 0), (3, 0)] = 1 ∧
        calculate_mistakes (mkCorrelationClustering [1, 2, 3] [(1, 2), (2, 3)] [(1, 3)])
          [(1, 0), (2, 0), (3, 1)] = 1) :=
  ⟨by decide, C1_mistake_counts 0 1 (by decide)⟩

/-- Claim C2: evaluation at the failing input.  On vertices `[1,2,3]` with
positive edges `[(1,2),(1,3),(2,3)]` every pairwise edge of the triple
`{1,2,3}` has a variable, so the claim (and the code's own comment, which
skips a triple only when an edge "does not exist") requires the three
triangle rows; but `edge_variable_index.get(...) or ...get(..., -1)` treats
the stored index 0 of the first edge as falsy and returns the `-1` sentinel,
so `formulate_lp` emits no constraint at all. -/
theorem C2_or_falsy_skips_first_edge :
    (formulate_lp ⟨[1, 2, 3], [(1, 2), (1, 3), (2, 3)], []⟩).constraint_coefficients
      = [] := by
  decide

/-- Claim C3, counterexample: in `interpret_solution` on vertices `[1,2,3]`
with `z_1_2 = 0`, `z_1_3 = 1`, `z_2_3 = 0`, vertex 2 is first assigned to
vertex 1's cluster 0 (first conjunct), yet in the final result it sits in
cluster 1: when vertex 3 opened cluster 1, the scan looked at *all* other
vertices, not only unassigned ones, and reassigned the already-assigned
vertex 2. -/
theorem C3_counterexample :
    dictGet (assignScan [((1, 2), 0), ((1, 3), 1), ((2, 3), 0)] 1 0
        [1, 2, 3] (dictInsert [] 1 0)) 2 = some 0 ∧
      dictGet (interpret_solution [1, 2, 3]
        [((1, 2), 0), ((1, 3), 1), ((2, 3), 0)]) 2 = some 1 := by
  constructor <;>
    norm_num [interpret_solution, interpretGo, assignScan, zValue, solGet,
      dictInsert, dictGet, dictMem, List.find?]

/-- Claim C3, amended: when a vertex not yet assigned a cluster opens a new
cluster `cid`, *every* other vertex in the scan list — already assigned or
not — ends up assigned to `cid` exactly when its edge variable value (looked
up in either orientation, defaulting to the `-1` sentinel) differs from `-1`
and is `< 0.5`; otherwise the opener keeps `cid` and every other vertex keeps
its previous assignment. -/
theorem C3_scan_assignment (sol : List ((Nat × Nat) × ℚ)) (vs : List Nat)
    (c : List (Nat × Nat)) (v cid ov : Nat) :
    dictGet (assignScan sol v cid vs (dictInsert c v cid)) ov =
      if ov ≠ v ∧ ov ∈ vs ∧ zValue sol v ov ≠ -1 ∧ zValue sol v ov < 1 / 2 then
        some cid
      else if ov = v then some cid
      else dictGet c ov := by
  rw [assignScan_get]
  by_cases h1 : ov ≠ v ∧ ov ∈ vs ∧ zValue sol v ov ≠ -1 ∧ zValue sol v ov < 1 / 2
  · rw [if_pos h1, if_pos h1]
  · rw [if_neg h1, if_neg h1]
    by_cases h2 : ov = v
    · rw [if_pos h2, h2, dictGet_insert_self]
    · rw [if_neg h2, dictGet_insert_ne c v ov cid h2]

/-- Claim C4, counterexample: with every endpoint missing from the clustering
(`clustering.get` returns `None` for both), a negative edge *does* contribute
a mistake (`None == None` in the source) and a positive edge does *not*, the
opposite of what the claim states for the both-endpoints-missing case. -/
theorem C4_counterexample :
    calculate_mistakes (mkCorrelationClustering [1, 2] [] [(1, 2)])
      ([] : List (Nat × Nat)) = 1 ∧
      calculate_mistakes (mkCorrelationClustering [1, 2] [(1, 2)] [])
        ([] : List (Nat × Nat)) = 0 := by
  decide

/-- Claim C4, amended: a missing entry behaves as the extra value `None`,
equal only to itself: for an edge `(u,v)` with `u` missing, a negative edge
contributes a mistake iff `v` is missing too, and a positive edge contributes
iff `v` is present. -/
theorem C4_missing_endpoint {α : Type} [DecidableEq α] (c : List (Nat × α))
    (vs : List Nat) (u v : Nat) (h : dictGet c u = none) :
    calculate_mistakes ⟨vs, ∅, {(u, v)}⟩ c =
        (if dictGet c v = none then 1 else 0) ∧
      calculate_mistakes ⟨vs, {(u, v)}, ∅⟩ c =
        (if dictGet c v = none then 0 else 1) := by
  by_cases hv : dictGet c v = none
  · simp [calculate_mistakes, Finset.filter_singleton, h, hv]
  · have hv3 : none ≠ dictGet c v := fun he => hv he.symm
    simp [calculate_mistakes, Finset.filter_singleton, h, hv, hv3]

/-- Claim C4, witness: vertex 1 missing, vertex 2 mapped to cluster 5. -/
theorem C4_missing_endpoint_witness :
    dictGet [(2, 5)] 1 = none ∧
      (calculate_mistakes ⟨[1, 2], ∅, {(1, 2)}⟩ [(2, 5)] =
          (if dictGet [(2, 5)] 2 = none then 1 else 0) ∧
        calculate_mistakes ⟨[1, 2], {(1, 2)}, ∅⟩ [(2, 5)] =
          (if dictGet [(2, 5)] 2 = none then 0 else 1)) :=
  ⟨by decide, C4_missing_endpoint [(2, 5)] [1, 2] 1 2 (by decide)⟩

/-- Claim C5: in both local-search variants every candidate step either
leaves the state untouched or strictly lowers `min_mistakes` (and flags the
commit), every full pass is non-increasing on `min_mistakes`, and the
returned `mistakes` field of each variant is at most the mistake count of the
initial singleton partition. -/
theorem C5_monotonic_improvement (g : SignedGraph) (stG : GreedyState)
    (stS : SimpleState) (ab uv : Nat × Nat) :
    (tryMergeG g stG ab = stG ∨
      ((tryMergeG g stG ab).min_mistakes < stG.min_mistakes ∧
        (tryMergeG g stG ab).improved = true)) ∧
      (tryMergeS g stS uv = stS ∨
        ((tryMergeS g stS uv).min_mistakes < stS.min_mistakes ∧
          (tryMergeS g stS uv).changed = true)) ∧
      (greedyRound g stG).min_mistakes ≤ stG.min_mistakes ∧
      (simpleRound g stS).min_mistakes ≤ stS.min_mistakes ∧
      (greedy_correlation_clustering g).mistakes
          ≤ calculate_mistakes g (initClustering g) ∧
      (simple_greedy_clustering g).mistakes
          ≤ calculate_mistakes g (initClustering g) :=
  ⟨tryMergeG_cases g stG ab, tryMergeS_cases g stS uv, greedyRound_min_le g stG,
   simpleRound_min_le g stS,
   greedyLoop_min_le g (initGreedyState g) (g.vertices.length * g.vertices.length),
   simpleLoop_min_le g (initSimpleState g)⟩

/-- Claim C6: the cluster-merge search terminates for every input — its loop,
run with fuel `|V|²` as in the source, executes at most `|V|²` passes
(`greedy_correlation_clustering` itself calls `greedyLoop` with exactly this
fuel), it executes none once `improved` is cleared, and as soon as a full
pass commits no improving merge at most that one further pass runs. -/
theorem C6_greedy_termination (g : SignedGraph) (st : GreedyState) (fuel : Nat) :
    greedyPassCount g (initGreedyState g) (g.vertices.length * g.vertices.length)
        ≤ g.vertices.length * g.vertices.length ∧
      greedyPassCount g st fuel ≤ fuel ∧
      (st.improved = false → greedyPassCount g st fuel = 0) ∧
      ((greedyRound g st).improved = false →
        greedyPassCount g st (fuel + 1) ≤ 1) := by
  refine ⟨greedyPassCount_le g _ _, greedyPassCount_le g fuel st, ?_, ?_⟩
  · intro h
    cases fuel with
    | zero => rfl
    | succ n => simp [greedyPassCount, h]
  · intro h
    unfold greedyPassCount
    by_cases hi : st.improved = true
    · simp only [hi, if_true]
      have h0 : greedyPassCount g (greedyRound g st) fuel = 0 := by
        cases fuel with
        | zero => rfl
        | succ n => simp [greedyPassCount, h]
      omega
    · simp only [Bool.not_eq_true] at hi
      simp [hi]

/-- Claim C6, witness: a state with `improved` cleared runs zero passes, and
one whose next pass commits nothing runs at most one. -/
theorem C6_greedy_termination_witness :
    greedyPassCount (mkCorrelationClustering [] [] []) ⟨[], [], 0, false⟩ 5 = 0 ∧
      greedyPassCount (mkCorrelationClustering [] [] []) ⟨[], [], 0, false⟩ (5 + 1)
        ≤ 1 :=
  ⟨(C6_greedy_termination (mkCorrelationClustering [] [] [])
      ⟨[], [], 0, false⟩ 5).2.2.1 (by decide),
   (C6_greedy_termination (mkCorrelationClustering [] [] [])
      ⟨[], [], 0, false⟩ 5).2.2.2 (by decide)⟩

/-- Claim C7: for disjoint, duplicate-free edge lists `formulate_lp` has
exactly `|E+| + |E-|` variables, objective coefficient `+1` per positive-edge
variable and `-1` per negative-edge variable, bounds `[0,1]` for every
variable, right-hand side 0 and type `<=` for every generated constraint. -/
theorem C7_lp_shape (g : LPGraph)
    (hd : ∀ e ∈ g.positive_edges, e ∉ g.negative_edges)
    (hp : g.positive_edges.Nodup) (hn : g.negative_edges.Nodup) :
    (formulate_lp g).variable_names.length
        = g.positive_edges.length + g.negative_edges.length ∧
      (formulate_lp g).objective_coefficients
        = List.replicate g.positive_edges.length (1 : Int) ++
            List.replicate g.negative_edges.length (-1 : Int) ∧
      (∀ bd ∈ (formulate_lp g).variable_bounds, bd = (0, 1)) ∧
      (∀ r ∈ (formulate_lp g).rhs, r = 0) ∧
      (∀ t ∈ (formulate_lp g).constraint_types, t = "<=") := by
  refine ⟨?_, ?_, ?_, ?_, ?_⟩ <;>
    simp [formulate_lp, List.map_const']

/-- Claim C7, witness: one positive and one negative edge give two variables. -/
theorem C7_lp_shape_witness :
    ([(1, 2)] : List (Nat × Nat)).Nodup ∧
      (formulate_lp ⟨[1, 2, 3], [(1, 2)], [(1, 3)]⟩).variable_names.length = 1 + 1 :=
  ⟨by decide,
   (C7_lp_shape ⟨[1, 2, 3], [(1, 2)], [(1, 3)]⟩ (by decide) (by decide)
     (by decide)).1⟩

/-- Claim C8: on a graph with fewer than 2 vertices and no edges, both
local-search variants return the trivial singleton clustering — each vertex
labeled by itself — with 0 mistakes. -/
theorem C8_degenerate_input (g : SignedGraph) (hv : g.vertices.length < 2)
    (hp : g.positive_edges = ∅) (hn : g.negative_edges = ∅) :
    (greedy_correlation_clustering g).clustering
        = g.vertices.map (fun v => (v, v)) ∧
      (greedy_correlation_clustering g).mistakes = 0 ∧
      (simple_greedy_clustering g).clustering
        = g.vertices.map (fun v => (v, v)) ∧
      (simple_greedy_clustering g).mistakes = 0 := by
  obtain ⟨vs, pos, neg⟩ := g
  dsimp only at hp hn hv
  subst hp hn
  have hm0 : ∀ c : List (Nat × Nat), calculate_mistakes ⟨vs, ∅, ∅⟩ c = 0 := by
    intro c
    simp [calculate_mistakes]
  rcases vs with _ | ⟨x, _ | ⟨y, t⟩⟩
  · rw [greedy_no_pairs ⟨[], ∅, ∅⟩ rfl, simple_greedy_no_pairs ⟨[], ∅, ∅⟩ rfl]
    exact ⟨rfl, hm0 _, rfl, hm0 _⟩
  · have hinit : initClustering ⟨[x], ∅, ∅⟩ = [(x, x)] := by
      simp [initClustering]
    have hlp : labelPairs (clusterLabels (initClustering ⟨[x], ∅, ∅⟩)) = [] := by
      rw [hinit]
      simp [clusterLabels, labelPairs, List.range_succ]
    have hvp : vertexPairs ([x] : List Nat) = [] := by
      simp [vertexPairs]
    rw [greedy_no_pairs ⟨[x], ∅, ∅⟩ hlp, simple_greedy_no_pairs ⟨[x], ∅, ∅⟩ hvp]
    refine ⟨?_, hm0 _, ?_, hm0 _⟩ <;> simp [hinit]
  · exfalso
    simp at hv
    omega

/-- Claim C8, witness: the single-vertex graph `[7]` with no edges. -/
theorem C8_degenerate_input_witness :
    (greedy_correlation_clustering (mkCorrelationClustering [7] [] [])).clustering
        = (mkCorrelationClustering [7] [] []).vertices.map (fun v => (v, v)) ∧
      (greedy_correlation_clustering (mkCorrelationClustering [7] [] [])).mistakes
        = 0 ∧
      (simple_greedy_clustering (mkCorrelationClustering [7] [] [])).clustering
        = (mkCorrelationClustering [7] [] []).vertices.map (fun v => (v, v)) ∧
      (simple_greedy_clustering (mkCorrelationClustering [7] [] [])).mistakes = 0 :=
  C8_degenerate_input (mkCorrelationClustering [7] [] []) (by decide) (by decide)
    (by decide)

/-- Claim C9: `validate_clustering` returns true iff the clustering's key set
equals the graph's vertex set, and relabeling every value leaves the verdict
unchanged (label-independence). -/
theorem C9_validate_iff {α : Type} (g : SignedGraph) (c : List (Nat × α))
    (f : α → α) :
    (validate_clustering g c = true ↔
      (c.map Prod.fst).toFinset = g.vertices.toFinset) ∧
      validate_clustering g (c.map (fun p => (p.1, f p.2))) =
        validate_clustering g c := by
  constructor
  · unfold validate_clustering
    exact decide_eq_true_iff
  · unfold validate_clustering
    rw [show (c.map (fun p => (p.1, f p.2))).map Prod.fst = c.map Prod.fst by
      simp [List.map_map]]

/-- Claim C10: the vertex-pair-merge search terminates without a cap: every
pass that sets `changed` strictly lowers `min_mistakes`, so the run from the
singleton start executes at most its initial mistake count plus one passes. -/
theorem C10_simple_termination (g : SignedGraph) (st : SimpleState) :
    ((simpleRound g st).changed = true →
        (simpleRound g st).min_mistakes < st.min_mistakes) ∧
      simplePasses g (initSimpleState g)
          ≤ calculate_mistakes g (initClustering g) + 1 := by
  refine ⟨simpleRound_changed_lt g st, ?_⟩
  have h := simplePasses_le_measure g (initSimpleState g)
  simpa [simpleMeasure, initSimpleState] using h

/-- Claim C10, witness: on vertices `[1,2]` with the positive edge `(1,2)`,
the pass from the singleton start commits the merge and lowers
`min_mistakes` below 1. -/
theorem C10_simple_termination_witness :
    (simpleRound (mkCorrelationClustering [1, 2] [(1, 2)] [])
        ⟨[(1, 1), (2, 2)], [(1, 1), (2, 2)], 1, true⟩).min_mistakes < 1 ∧
      simplePasses (mkCorrelationClustering [1, 2] [(1, 2)] [])
          (initSimpleState (mkCorrelationClustering [1, 2] [(1, 2)] []))
        ≤ calculate_mistakes (mkCorrelationClustering [1, 2] [(1, 2)] [])
            (initClustering (mkCorrelationClustering [1, 2] [(1, 2)] [])) + 1 :=
  ⟨(C10_simple_termination (mkCorrelationClustering [1, 2] [(1, 2)] [])
      ⟨[(1, 1), (2, 2)], [(1, 1), (2, 2)], 1, true⟩).1 (by decide),
   (C10_simple_termination (mkCorrelationClustering [1, 2] [(1, 2)] [])
      ⟨[(1, 1), (2, 2)], [(1, 1), (2, 2)], 1, true⟩).2⟩
